import Mathlib

/-!
Shallow embedding of the text-statistics and classification engine of
`app.py` (functions `preprocess_text`, `plot_most_common_words`,
`plot_repeated_words`, `calculate_perplexity`, `calculate_burstiness`,
`is_generated_text`, and the model training performed in `main`).

Conventions of the embedding:
* Python floats are modelled as exact rationals `ℚ`; the transcendental
  perplexity value (`2 ** entropy` in nltk) is modelled in `ℝ`.
* Python exceptions (`ZeroDivisionError` from `sum/len` on an empty
  distribution, `ValueError` from `math.log(0)` inside
  `model.perplexity`, the `ValueError` raised by unpacking `zip(*[])`)
  are modelled by `Option`/error results: `none` means the call raises.
* `nltk.word_tokenize(text.lower())` is an external library call; the
  functions below take its output (the lowercased word-token list) as
  input, and everything from that point on follows the source.
* `nltk.FreqDist` is a `collections.Counter`: a dict counting
  occurrences, iterated in key-insertion order (= first-occurrence
  order of the tokens).  It is modelled as an association list built
  exactly that way.
-/

namespace TextAnalysis

/-- Python's `string.punctuation` constant:
the 32 ASCII punctuation characters. -/
def string_punctuation : String :=
  "!\"#$%&\x27()*+,-./:;<=>?@[\\]^_\x60\x7b|\x7d~"

/-- The NLTK English stopword list, the value of
`stopwords.words('english')` used in `preprocess_text`. -/
def stop_words : List String :=
  ["i", "me", "my", "myself", "we", "our", "ours", "ourselves", "you",
   "you\x27re", "you\x27ve", "you\x27ll", "you\x27d", "your", "yours",
   "yourself", "yourselves", "he", "him", "his", "himself", "she",
   "she\x27s", "her", "hers", "herself", "it", "it\x27s", "its",
   "itself", "they", "them", "their", "theirs", "themselves", "what",
   "which", "who", "whom", "this", "that", "that\x27ll", "these",
   "those", "am", "is", "are", "was", "were", "be", "been", "being",
   "have", "has", "had", "having", "do", "does", "did", "doing", "a",
   "an", "the", "and", "but", "if", "or", "because", "as", "until",
   "while", "of", "at", "by", "for", "with", "about", "against",
   "between", "into", "through", "during", "before", "after", "above",
   "below", "to", "from", "up", "down", "in", "out", "on", "off",
   "over", "under", "again", "further", "then", "once", "here",
   "there", "when", "where", "why", "how", "all", "any", "both",
   "each", "few", "more", "most", "other", "some", "such", "no",
   "nor", "not", "only", "own", "same", "so", "than", "too", "very",
   "s", "t", "can", "will", "just", "don", "don\x27t", "should",
   "should\x27ve", "now", "d", "ll", "m", "o", "re", "ve", "y",
   "ain", "aren", "aren\x27t", "couldn", "couldn\x27t", "didn",
   "didn\x27t", "doesn", "doesn\x27t", "hadn", "hadn\x27t", "hasn",
   "hasn\x27t", "haven", "haven\x27t", "isn", "isn\x27t", "ma",
   "mightn", "mightn\x27t", "mustn", "mustn\x27t", "needn",
   "needn\x27t", "shan", "shan\x27t", "shouldn", "shouldn\x27t",
   "wasn", "wasn\x27t", "weren", "weren\x27t", "won", "won\x27t",
   "wouldn", "wouldn\x27t"]

/-- Python's `needle in haystack` on strings (contiguous substring
containment), at the level of character lists. -/
def subOf (needle hay : List Char) : Bool :=
  hay.tails.any (fun t => needle.isPrefixOf t)

/-- `preprocess_text` (app.py line 36): the list comprehension
`[token for token in tokens if token not in stop_words and token not in
string.punctuation]`.  The argument is the token list produced by the
external call `nltk.word_tokenize(text.lower())`; note that
`token not in string.punctuation` is Python substring containment in
the 32-character punctuation string. -/
def preprocess_text (tokens : List String) : List String :=
  tokens.filter
    (fun t => !(stop_words.contains t) && !(subOf t.data string_punctuation.data))

/-- `is_generated_text` (app.py line 94): the threshold classifier. -/
def is_generated_text (perplexity burstiness_score : ℚ) : String :=
  if perplexity < 100 ∧ burstiness_score < 1 then
    "Likely generated by a language model"
  else
    "Not likely generated by a language model"

/-- One step of `collections.Counter` (= `nltk.FreqDist`) construction:
increment the count of `w`, appending a fresh key at the end when `w`
is new (Python dicts preserve insertion order). -/
def bump (fd : List (String × ℕ)) (w : String) : List (String × ℕ) :=
  match fd with
  | [] => [(w, 1)]
  | (x, c) :: rest => if x = w then (x, c + 1) :: rest else (x, c) :: bump rest w

/-- `nltk.FreqDist(tokens)`: the frequency distribution as an
association list in first-occurrence order of the keys. -/
def freqDist (tokens : List String) : List (String × ℕ) :=
  tokens.foldl bump []

/-- Dictionary lookup `word_freq[word]` (0 for a missing key; the code
only looks up present keys). -/
def getCount : List (String × ℕ) → String → ℕ
  | [], _ => 0
  | (x, c) :: rest, w => if x = w then c else getCount rest w

/-- The comparison used by `Counter.most_common`: sort by descending
count.  `byDescCount a b` holds when `a` may come before `b`. -/
def byDescCount (a b : String × ℕ) : Prop := b.2 ≤ a.2

instance : DecidableRel byDescCount := fun a b => Nat.decLe b.2 a.2

instance : IsTotal (String × ℕ) byDescCount := ⟨fun a b => Nat.le_total b.2 a.2⟩

instance : IsTrans (String × ℕ) byDescCount := ⟨fun _ _ _ h1 h2 => le_trans h2 h1⟩

/-- `word_freq.most_common n` (a `collections.Counter` method):
equivalent to `sorted(items, key=count, reverse=True)[:n]` with
Python's stable sort. -/
def most_common (n : ℕ) (fd : List (String × ℕ)) : List (String × ℕ) :=
  (fd.insertionSort byDescCount).take n

/-- `plot_most_common_words` (app.py line 43), up to the point that can
fail: `words, counts = zip(*word_freq.most_common(10))`.  Unpacking
`zip(*[])` raises `ValueError` (modelled `none`); otherwise the chart
data `(words, counts)` is produced. -/
def plot_most_common_words (tokens : List String) : Option (List String × List ℕ) :=
  let mc := most_common 10 (freqDist tokens)
  if mc = [] then none else some mc.unzip

/-- The list `[word for word, count in word_freq.items() if count > 1][:10]`
of `plot_repeated_words` (app.py line 62). -/
def repeated_words (tokens : List String) : List String :=
  (((freqDist tokens).filter (fun p => decide (1 < p.2))).map Prod.fst).take 10

/-- The pair list `[(word, word_freq[word]) for word in repeated_words]`
of `plot_repeated_words` (app.py line 64). -/
def repeated_pairs (tokens : List String) : List (String × ℕ) :=
  (repeated_words tokens).map (fun w => (w, getCount (freqDist tokens) w))

/-- `plot_repeated_words` (app.py line 59), up to the point that can
fail: `words, counts = zip(*[(word, word_freq[word]) for word in
repeated_words])`, which raises `ValueError` on an empty list. -/
def plot_repeated_words (tokens : List String) : Option (List String × List ℕ) :=
  let rp := repeated_pairs tokens
  if rp = [] then none else some rp.unzip

/-- `calculate_burstiness` (app.py line 83).  `avg_freq` and `variance`
divide by `len(word_freq)`: an empty distribution raises
`ZeroDivisionError`, modelled as `none`. -/
def calculate_burstiness (tokens : List String) : Option ℚ :=
  let fd := freqDist tokens
  if fd.length = 0 then none
  else
    let counts : List ℚ := fd.map (fun p => (p.2 : ℚ))
    let avg_freq := counts.sum / (fd.length : ℚ)
    let variance := (counts.map (fun f => (f - avg_freq) ^ 2)).sum / (fd.length : ℚ)
    some (variance / avg_freq ^ 2)

/-- An nltk language model as `calculate_perplexity` uses it: an
n-gram `order` and a conditional-probability score for an n-gram
(nltk's `model.score(ngram[-1], ngram[:-1])`). -/
structure LangModel where
  order : ℕ
  score : List String → ℚ

/-- `nltk.util.ngrams(xs, n)`: all contiguous windows of length `n`
(empty when `n > len(xs)`). -/
def ngramsList (n : ℕ) (xs : List String) : List (List String) :=
  (List.range (xs.length + 1 - n)).map (fun i => (xs.drop i).take n)

/-- The padding `['<s>'] + tokens + ['</s>']` of `calculate_perplexity`
(app.py line 77). -/
def padTokens (tokens : List String) : List String :=
  "<s>" :: tokens ++ ["</s>"]

/-- The conditional probabilities that `model.perplexity` queries in
`calculate_perplexity`: one score per n-gram of the padded input. -/
def perplexityScores (m : LangModel) (tokens : List String) : List ℚ :=
  (ngramsList m.order (padTokens tokens)).map m.score

/-- The data of a successful `model.perplexity` call: the product of
the queried probabilities and their number.  `none` models the
exceptions of nltk's computation: `math.log(0)` raises `ValueError`
when some probability is 0 (MLE assigns no mass below 0, so `0 < s`
is exactly "the log is defined"), and the mean over zero n-grams
raises `ZeroDivisionError`. -/
def perplexityData (m : LangModel) (tokens : List String) : Option (ℚ × ℕ) :=
  let ss := perplexityScores m tokens
  if ss ≠ [] ∧ ∀ s ∈ ss, 0 < s then some (ss.prod, ss.length) else none

/-- `calculate_perplexity` (app.py line 75) with nltk's
`model.perplexity`: `pow(2, entropy)` where
`entropy = -mean([log2(score) for each ngram])`. -/
noncomputable def calculate_perplexity (m : LangModel) (tokens : List String) : Option ℝ :=
  let ss := perplexityScores m tokens
  if ss ≠ [] ∧ ∀ s ∈ ss, 0 < s then
    some ((2 : ℝ) ^ (-((ss.map (fun p : ℚ => Real.logb 2 (p : ℝ))).sum / (ss.length : ℝ))))
  else none

/-- The per-word character unigrams that `padded_everygram_pipeline(1,
tokens)` actually trains on in `main` (app.py line 156): the corpus is
the flat word list `nltk.corpus.brown.words()`, so each *word* is
treated as a sentence and iterated as *characters*; with order 1,
`pad_both_ends` adds `n - 1 = 0` padding symbols. -/
def charTokens (corpus : List String) : List String :=
  (corpus.map (fun w => w.data.map (fun c => String.mk [c]))).flatten

/-- The unigram MLE score of the model fitted in `main` (app.py line
157): relative frequency of the looked-up token among the training
unigrams.  A token outside the trained vocabulary is looked up as
`<UNK>`, which has count 0, so its score is exactly 0 (nltk's
`FreqDist.freq` returns 0 when the total is 0, matching `ℚ`'s `x / 0
= 0`). -/
def mleScore (corpus : List String) (w : String) : ℚ :=
  ((charTokens corpus).count w : ℚ) / ((charTokens corpus).length : ℚ)

/-- The `MLE(1)` model fitted in `main` from `brown.words()`: order 1,
scoring the last element of the queried n-gram. -/
def mleModel (corpus : List String) : LangModel :=
  ⟨1, fun g => mleScore corpus (g.getLastD "")⟩

/-- The errors the Text Analysis pipeline of `main` can raise, plus
the `InsufficientDataError` that the specification postulates (the
source never raises it). -/
inductive AnalysisError where
  | valueError : AnalysisError
  | zeroDivisionError : AnalysisError
  | insufficientData : AnalysisError
deriving DecidableEq

/-- The failure behaviour of the Text Analysis branch of `main`
(app.py lines 161-169): `calculate_perplexity` runs first (its
`math.log(0)` failure is a `ValueError`), then `calculate_burstiness`
(its failure is a `ZeroDivisionError`), then the total classifier
`is_generated_text`; `none` means all steps succeed. -/
def analysis_error (corpus tokens : List String) : Option AnalysisError :=
  match perplexityData (mleModel corpus) tokens with
  | none => some .valueError
  | some _ =>
    match calculate_burstiness tokens with
    | none => some .zeroDivisionError
    | some _ => none

/-- Arithmetic mean of a list of rationals (the specification's
`mean(counts)`). -/
def listMean (l : List ℚ) : ℚ := l.sum / (l.length : ℚ)

/-- Population variance of a list of rationals, divisor = length (the
specification's `variance(counts)`). -/
def popVariance (l : List ℚ) : ℚ :=
  (l.map (fun x => (x - listMean l) ^ 2)).sum / (l.length : ℚ)

/-- The key sequence of the frequency distribution (`word_freq.keys()`,
in dict insertion order). -/
def distinctTokens (ts : List String) : List String :=
  (freqDist ts).map Prod.fst

/-- The tokens of `ts` in first-occurrence order, skipping the ones in
`seen`: the keys a run of `Counter` counting appends. -/
def newKeys (seen : List String) : List String → List String
  | [] => []
  | t :: r => if t ∈ seen then newKeys seen r else t :: newKeys (t :: seen) r

theorem keys_bump (fd : List (String × ℕ)) (w : String) :
    (bump fd w).map Prod.fst =
      if w ∈ fd.map Prod.fst then fd.map Prod.fst else fd.map Prod.fst ++ [w] := by
  induction fd with
  | nil => simp [bump]
  | cons p rest ih =>
    obtain ⟨x, c⟩ := p
    by_cases hx : x = w
    · subst hx
      simp [bump]
    · by_cases hw : w ∈ rest.map Prod.fst <;>
        simp [bump, hx, ih, hw, Ne.symm hx]

theorem getCount_bump_self (fd : List (String × ℕ)) (w : String) :
    getCount (bump fd w) w = getCount fd w + 1 := by
  induction fd with
  | nil => simp [bump, getCount]
  | cons p rest ih =>
    obtain ⟨x, c⟩ := p
    by_cases hx : x = w
    · subst hx
      simp [bump, getCount]
    · simp [bump, getCount, hx, ih]

theorem getCount_bump_ne (fd : List (String × ℕ)) (w v : String) (hvw : v ≠ w) :
    getCount (bump fd w) v = getCount fd v := by
  induction fd with
  | nil => simp [bump, getCount, Ne.symm hvw]
  | cons p rest ih =>
    obtain ⟨x, c⟩ := p
    by_cases hx : x = w
    · subst hx
      simp [bump, getCount, Ne.symm hvw]
    · by_cases hxv : x = v
      · subst hxv
        simp [bump, getCount, hx]
      · simp [bump, getCount, hx, hxv, ih]

theorem getCount_foldl_bump :
    ∀ (ts : List String) (acc : List (String × ℕ)) (w : String),
      getCount (ts.foldl bump acc) w = getCount acc w + ts.count w
  | [], acc, w => by simp
  | t :: ts, acc, w => by
    rw [List.foldl_cons, getCount_foldl_bump ts (bump acc t) w]
    by_cases hw : t = w
    · subst hw
      rw [getCount_bump_self]
      simp [List.count_cons]
      omega
    · rw [getCount_bump_ne _ _ _ (Ne.symm hw)]
      simp [List.count_cons, hw]

theorem getCount_freqDist (ts : List String) (w : String) :
    getCount (freqDist ts) w = ts.count w := by
  rw [freqDist, getCount_foldl_bump]
  simp [getCount]

theorem newKeys_congr :
    ∀ (ts seen seen' : List String), (∀ x, x ∈ seen ↔ x ∈ seen') →
      newKeys seen ts = newKeys seen' ts
  | [], _, _, _ => rfl
  | t :: r, seen, seen', h => by
    by_cases ht : t ∈ seen
    · rw [newKeys, newKeys, if_pos ht, if_pos ((h t).1 ht)]
      exact newKeys_congr r seen seen' h
    · rw [newKeys, newKeys, if_neg ht, if_neg (fun hx => ht ((h t).2 hx))]
      refine congrArg (t :: ·) (newKeys_congr r (t :: seen) (t :: seen') ?_)
      intro x
      simp [h x]

theorem keys_foldl_bump :
    ∀ (ts : List String) (acc : List (String × ℕ)),
      (ts.foldl bump acc).map Prod.fst = acc.map Prod.fst ++ newKeys (acc.map Prod.fst) ts
  | [], acc => by simp [newKeys]
  | t :: r, acc => by
    rw [List.foldl_cons, keys_foldl_bump r (bump acc t), keys_bump]
    by_cases ht : t ∈ acc.map Prod.fst
    · simp [newKeys, ht]
    · rw [if_neg ht, newKeys, if_neg ht,
        newKeys_congr r (acc.map Prod.fst ++ [t]) (t :: acc.map Prod.fst) (by intro x; simp; tauto)]
      simp

theorem mem_newKeys :
    ∀ (ts seen : List String) (x : String), x ∈ newKeys seen ts ↔ x ∈ ts ∧ x ∉ seen
  | [], seen, x => by simp [newKeys]
  | t :: r, seen, x => by
    by_cases ht : t ∈ seen
    · rw [newKeys, if_pos ht, mem_newKeys r seen x]
      constructor
      · exact fun h => ⟨List.mem_cons_of_mem _ h.1, h.2⟩
      · rintro ⟨hm, hs⟩
        rcases List.mem_cons.1 hm with rfl | hr
        · exact absurd ht hs
        · exact ⟨hr, hs⟩
    · rw [newKeys, if_neg ht]
      constructor
      · intro hm
        rcases List.mem_cons.1 hm with rfl | hr
        · exact ⟨List.mem_cons_self _ _, ht⟩
        · have h := (mem_newKeys r (t :: seen) x).1 hr
          exact ⟨List.mem_cons_of_mem _ h.1, fun hs => h.2 (List.mem_cons_of_mem _ hs)⟩
      · rintro ⟨hm, hs⟩
        rcases List.mem_cons.1 hm with rfl | hr
        · exact List.mem_cons_self _ _
        · by_cases hxt : x = t
          · subst hxt
            exact List.mem_cons_self _ _
          · exact List.mem_cons_of_mem _
              ((mem_newKeys r (t :: seen) x).2 ⟨hr, by simp [hxt, hs]⟩)

theorem nodup_newKeys : ∀ (ts seen : List String), (newKeys seen ts).Nodup
  | [], _ => by simp [newKeys]
  | t :: r, seen => by
    by_cases ht : t ∈ seen
    · rw [newKeys, if_pos ht]
      exact nodup_newKeys r seen
    · rw [newKeys, if_neg ht, List.nodup_cons]
      exact ⟨fun hm => ((mem_newKeys r (t :: seen) t).1 hm).2 (List.mem_cons_self _ _),
        nodup_newKeys r (t :: seen)⟩

theorem pairwise_newKeys :
    ∀ (ts seen : List String),
      (newKeys seen ts).Pairwise (fun a b => ts.indexOf a < ts.indexOf b)
  | [], _ => by simp [newKeys]
  | t :: r, seen => by
    by_cases ht : t ∈ seen
    · rw [newKeys, if_pos ht]
      refine (pairwise_newKeys r seen).imp_of_mem ?_
      intro a b ha hb hab
      have hat : t ≠ a := fun h => ((mem_newKeys r seen a).1 ha).2 (h ▸ ht)
      have hbt : t ≠ b := fun h => ((mem_newKeys r seen b).1 hb).2 (h ▸ ht)
      rw [List.indexOf_cons_ne _ hat, List.indexOf_cons_ne _ hbt]
      exact Nat.succ_lt_succ hab
    · rw [newKeys, if_neg ht, List.pairwise_cons]
      constructor
      · intro b hb
        have hbt : t ≠ b := fun h =>
          ((mem_newKeys r (t :: seen) b).1 hb).2 (h ▸ List.mem_cons_self _ _)
        rw [List.indexOf_cons_self, List.indexOf_cons_ne _ hbt]
        exact Nat.succ_pos _
      · refine (pairwise_newKeys r (t :: seen)).imp_of_mem ?_
        intro a b ha hb hab
        have hat : t ≠ a := fun h =>
          ((mem_newKeys r (t :: seen) a).1 ha).2 (h ▸ List.mem_cons_self _ _)
        have hbt : t ≠ b := fun h =>
          ((mem_newKeys r (t :: seen) b).1 hb).2 (h ▸ List.mem_cons_self _ _)
        rw [List.indexOf_cons_ne _ hat, List.indexOf_cons_ne _ hbt]
        exact Nat.succ_lt_succ hab

theorem distinctTokens_eq_newKeys (ts : List String) : distinctTokens ts = newKeys [] ts := by
  rw [distinctTokens, freqDist, keys_foldl_bump]
  simp

theorem nodup_distinctTokens (ts : List String) : (distinctTokens ts).Nodup := by
  rw [distinctTokens_eq_newKeys]
  exact nodup_newKeys ts []

theorem mem_distinctTokens (ts : List String) (w : String) :
    w ∈ distinctTokens ts ↔ w ∈ ts := by
  rw [distinctTokens_eq_newKeys, mem_newKeys]
  simp

theorem pairwise_firstOcc_distinctTokens (ts : List String) :
    (distinctTokens ts).Pairwise (fun a b => ts.indexOf a < ts.indexOf b) := by
  rw [distinctTokens_eq_newKeys]
  exact pairwise_newKeys ts []

theorem getCount_of_mem_nodupKeys :
    ∀ (fd : List (String × ℕ)), (fd.map Prod.fst).Nodup →
      ∀ p ∈ fd, getCount fd p.1 = p.2
  | [], _, p, hp => absurd hp (List.not_mem_nil p)
  | (x, c) :: rest, hnd, p, hp => by
    rw [List.map_cons, List.nodup_cons] at hnd
    rcases List.mem_cons.1 hp with rfl | hr
    · simp [getCount]
    · have hxp : x ≠ p.1 := by
        intro h
        exact hnd.1 (h ▸ List.mem_map.2 ⟨p, hr, rfl⟩)
      rw [getCount, if_neg hxp]
      exact getCount_of_mem_nodupKeys rest hnd.2 p hr

theorem snd_eq_count_of_mem_freqDist (ts : List String) :
    ∀ p ∈ freqDist ts, p.2 = ts.count p.1 := by
  intro p hp
  have hnd : ((freqDist ts).map Prod.fst).Nodup := nodup_distinctTokens ts
  rw [← getCount_of_mem_nodupKeys (freqDist ts) hnd p hp, getCount_freqDist]

theorem freqDist_ne_nil (ts : List String) (h : ts ≠ []) : freqDist ts ≠ [] := by
  obtain ⟨t, r, rfl⟩ := List.exists_cons_of_ne_nil h
  intro hfd
  have hm : t ∈ distinctTokens (t :: r) :=
    (mem_distinctTokens _ _).2 (List.mem_cons_self _ _)
  rw [distinctTokens, hfd] at hm
  simp at hm

theorem counts_eq_map_count (ts : List String) :
    (freqDist ts).map (fun p => (p.2 : ℚ)) =
      (distinctTokens ts).map (fun w => (ts.count w : ℚ)) := by
  rw [distinctTokens, List.map_map]
  refine List.map_congr_left ?_
  intro p hp
  simp [snd_eq_count_of_mem_freqDist ts p hp]

theorem filter_orderedInsert_byDescCount (c : ℕ) (a : String × ℕ) :
    ∀ l : List (String × ℕ),
      (l.orderedInsert byDescCount a).filter (fun p => decide (p.2 = c)) =
        if a.2 = c then a :: l.filter (fun p => decide (p.2 = c))
        else l.filter (fun p => decide (p.2 = c))
  | [] => by
    by_cases hc : a.2 = c <;> simp [List.orderedInsert, List.filter, hc]
  | b :: l => by
    by_cases hab : byDescCount a b
    · rw [List.orderedInsert, if_pos hab]
      by_cases hc : a.2 = c <;> simp [List.filter, hc]
    · rw [List.orderedInsert, if_neg hab]
      have hbgt : a.2 < b.2 := Nat.lt_of_not_le hab
      by_cases hc : a.2 = c
      · have hbc : ¬b.2 = c := by omega
        rw [if_pos hc]
        simp only [List.filter, hbc, decide_eq_true_eq, decide_eq_false hbc]
        rw [filter_orderedInsert_byDescCount c a l, if_pos hc]
        simp [List.filter]
      · rw [if_neg hc]
        by_cases hbc : b.2 = c <;>
          simp [List.filter, hbc, filter_orderedInsert_byDescCount c a l, hc]

theorem filter_insertionSort_byDescCount (c : ℕ) :
    ∀ l : List (String × ℕ),
      (l.insertionSort byDescCount).filter (fun p => decide (p.2 = c)) =
        l.filter (fun p => decide (p.2 = c))
  | [] => rfl
  | a :: l => by
    rw [List.insertionSort, filter_orderedInsert_byDescCount,
      filter_insertionSort_byDescCount c l]
    by_cases hc : a.2 = c <;> simp [List.filter, hc]

theorem burstiness_eq_of_ne_nil (ts : List String) (h : ts ≠ []) :
    calculate_burstiness ts =
      some (popVariance ((distinctTokens ts).map (fun w => (ts.count w : ℚ))) /
        listMean ((distinctTokens ts).map (fun w => (ts.count w : ℚ))) ^ 2) := by
  have hfd : freqDist ts ≠ [] := freqDist_ne_nil ts h
  have hlen : (freqDist ts).length ≠ 0 := fun hl => hfd (List.length_eq_zero.1 hl)
  rw [calculate_burstiness, if_neg hlen]
  simp only [popVariance, listMean, ← counts_eq_map_count, List.length_map]

theorem rpow_two_list_sum :
    ∀ l : List ℝ, (2 : ℝ) ^ l.sum = (l.map (fun y => (2 : ℝ) ^ y)).prod
  | [] => by simp [Real.rpow_zero]
  | a :: l => by
    rw [List.sum_cons, Real.rpow_add (by norm_num), rpow_two_list_sum l,
      List.map_cons, List.prod_cons]

theorem length_eq_one_of_mem_charTokens (corpus : List String) (w : String)
    (h : w ∈ charTokens corpus) : w.data.length = 1 := by
  rw [charTokens] at h
  simp only [List.mem_flatten, List.mem_map] at h
  obtain ⟨l, ⟨s, hs, rfl⟩, hw⟩ := h
  obtain ⟨c, hc, rfl⟩ := List.mem_map.1 hw
  rfl

theorem mleScore_start_eq_zero (corpus : List String) : mleScore corpus "<s>" = 0 := by
  have hnm : "<s>" ∉ charTokens corpus := by
    intro h
    exact absurd (length_eq_one_of_mem_charTokens corpus _ h) (by decide)
  rw [mleScore, List.count_eq_zero.2 hnm]
  simp

theorem start_mem_ngrams (ts : List String) :
    ["<s>"] ∈ ngramsList 1 (padTokens ts) := by
  rw [ngramsList, List.mem_map]
  refine ⟨0, ?_, ?_⟩
  · rw [List.mem_range, padTokens]
    simp
  · rw [padTokens]
    simp

theorem zero_mem_perplexityScores_mleModel (corpus ts : List String) :
    (0 : ℚ) ∈ perplexityScores (mleModel corpus) ts := by
  rw [perplexityScores]
  refine List.mem_map.2 ⟨["<s>"], ?_, ?_⟩
  · show ["<s>"] ∈ ngramsList (mleModel corpus).order (padTokens ts)
    exact start_mem_ngrams ts
  · show (mleModel corpus).score ["<s>"] = 0
    rw [mleModel]
    exact mleScore_start_eq_zero corpus

theorem perplexityData_mleModel_eq_none (corpus ts : List String) :
    perplexityData (mleModel corpus) ts = none := by
  rw [perplexityData]
  rw [if_neg]
  rintro ⟨-, hpos⟩
  exact absurd (hpos 0 (zero_mem_perplexityScores_mleModel corpus ts)) (lt_irrefl 0)

theorem analysis_error_mleModel (corpus ts : List String) :
    analysis_error corpus ts = some AnalysisError.valueError := by
  rw [analysis_error, perplexityData_mleModel_eq_none]

theorem subOf_singleton_of_mem :
    ∀ (b : List Char) (c : Char), c ∈ b → subOf [c] b = true
  | [], c, h => absurd h (List.not_mem_nil c)
  | x :: r, c, h => by
    rw [subOf, List.tails, List.any_cons]
    rcases List.mem_cons.1 h with rfl | hr
    · simp [List.isPrefixOf]
    · have ih := subOf_singleton_of_mem r c hr
      rw [subOf] at ih
      simp [ih]

/-- C1: for every pair of defined inputs (perplexity, burstiness),
`is_generated_text` returns "Likely generated by a language model" if
and only if perplexity < 100 and burstiness < 1, and returns "Not
likely generated by a language model" otherwise. -/
theorem claim_C1_classifier_thresholds (p b : ℚ) :
    (is_generated_text p b = "Likely generated by a language model" ↔ p < 100 ∧ b < 1) ∧
    (is_generated_text p b = "Not likely generated by a language model" ↔ ¬(p < 100 ∧ b < 1)) := by
  by_cases h : p < 100 ∧ b < 1
  · rw [is_generated_text, if_pos h]
    exact ⟨⟨fun _ => h, fun _ => rfl⟩,
      ⟨fun heq => absurd heq (by decide), fun hn => absurd h hn⟩⟩
  · rw [is_generated_text, if_neg h]
    exact ⟨⟨fun heq => absurd heq (by decide), fun hp => absurd hp h⟩,
      ⟨fun _ => h, fun _ => rfl⟩⟩

/-- C4: for a text with a non-empty frequency distribution, the
burstiness score equals variance(counts) / mean(counts)^2 over the
multiset of per-token counts (population variance, divisor = number of
distinct tokens); for an empty distribution the result is undefined
(the division by `len(word_freq)` raises), not silently zero. -/
theorem claim_C4_burstiness_formula (ts : List String) :
    (ts ≠ [] → ∃ d : List String, d.Nodup ∧ (∀ w, w ∈ d ↔ w ∈ ts) ∧
      calculate_burstiness ts =
        some (popVariance (d.map (fun w => (ts.count w : ℚ))) /
          listMean (d.map (fun w => (ts.count w : ℚ))) ^ 2)) ∧
    calculate_burstiness [] = none := by
  refine ⟨fun h => ⟨distinctTokens ts, nodup_distinctTokens ts,
    fun w => mem_distinctTokens ts w, burstiness_eq_of_ne_nil ts h⟩, rfl⟩

/-- Witness for C4 at the concrete input ["a", "b", "a"]. -/
theorem claim_C4_witness :
    (["a", "b", "a"] : List String) ≠ [] ∧
    (∃ d : List String, d.Nodup ∧ (∀ w, w ∈ d ↔ w ∈ (["a", "b", "a"] : List String)) ∧
      calculate_burstiness ["a", "b", "a"] =
        some (popVariance (d.map (fun w => ((["a", "b", "a"] : List String).count w : ℚ))) /
          listMean (d.map (fun w => ((["a", "b", "a"] : List String).count w : ℚ))) ^ 2)) :=
  ⟨by decide, (claim_C4_burstiness_formula ["a", "b", "a"]).1 (by decide)⟩

/-- C7: `most_common 10` of the frequency distribution is the take-10
prefix of a stable sort of the distribution by descending count (a
sorted permutation whose equal-count entries keep the distribution's
order, which is first-occurrence order of the tokens, with counts the
occurrence counts); its length is min 10 (number of distinct tokens). -/
theorem claim_C7_top_words (ts : List String) :
    (∃ s : List (String × ℕ),
      most_common 10 (freqDist ts) = s.take 10 ∧
      s.Perm (freqDist ts) ∧
      s.Sorted byDescCount ∧
      (∀ c : ℕ, s.filter (fun p => decide (p.2 = c)) =
        (freqDist ts).filter (fun p => decide (p.2 = c)))) ∧
    ((freqDist ts).map Prod.fst).Pairwise (fun a b => ts.indexOf a < ts.indexOf b) ∧
    (∀ p ∈ freqDist ts, p.2 = ts.count p.1) ∧
    (most_common 10 (freqDist ts)).length = min 10 (freqDist ts).length := by
  refine ⟨⟨(freqDist ts).insertionSort byDescCount, rfl,
    List.perm_insertionSort byDescCount (freqDist ts),
    List.sorted_insertionSort byDescCount (freqDist ts),
    fun c => filter_insertionSort_byDescCount c (freqDist ts)⟩,
    pairwise_firstOcc_distinctTokens ts,
    snd_eq_count_of_mem_freqDist ts, ?_⟩
  rw [most_common, List.length_take,
    (List.perm_insertionSort byDescCount (freqDist ts)).length_eq]

/-- Witness for C7 at the concrete input ["b", "a", "b"]. -/
theorem claim_C7_witness :
    (("b", 2) ∈ freqDist ["b", "a", "b"]) ∧
    2 = (["b", "a", "b"] : List String).count "b" :=
  ⟨by decide, (claim_C7_top_words ["b", "a", "b"]).2.2.1 ("b", 2) (by decide)⟩

/-- C8: `repeated_pairs` is exactly the distribution's entries with
count > 1, in iteration order, truncated to the first 10, each token
paired with its occurrence count; "test test test test" yields exactly
[("test", 4)]. -/
theorem claim_C8_repeated_words (ts : List String) :
    repeated_pairs ts = ((freqDist ts).filter (fun p => decide (1 < p.2))).take 10 ∧
    (∀ p ∈ repeated_pairs ts, 1 < p.2 ∧ p.2 = ts.count p.1) ∧
    repeated_pairs ["test", "test", "test", "test"] = [("test", 4)] := by
  have hpairs : repeated_pairs ts =
      ((freqDist ts).filter (fun p => decide (1 < p.2))).take 10 := by
    rw [repeated_pairs, repeated_words, List.map_take, List.map_map]
    congr 1
    refine (List.map_congr_left ?_).trans (List.map_id _)
    intro p hp
    show (p.1, getCount (freqDist ts) p.1) = p
    rw [getCount_of_mem_nodupKeys (freqDist ts) (nodup_distinctTokens ts) p
      (List.mem_filter.1 hp).1]
  refine ⟨hpairs, ?_, by decide⟩
  intro p hp
  rw [hpairs] at hp
  have hp2 := List.mem_of_mem_take hp
  have hfd := (List.mem_filter.1 hp2).1
  have hgt : 1 < p.2 := of_decide_eq_true (List.mem_filter.1 hp2).2
  exact ⟨hgt, snd_eq_count_of_mem_freqDist ts p hfd⟩

/-- Witness for C8 at the concrete entry ("test", 4). -/
theorem claim_C8_witness :
    (("test", 4) ∈ repeated_pairs ["test", "test", "test", "test"]) ∧
    (1 < 4 ∧ 4 = (["test", "test", "test", "test"] : List String).count "test") :=
  ⟨by decide,
    (claim_C8_repeated_words ["test", "test", "test", "test"]).2.1 ("test", 4) (by decide)⟩

/-- C10: when no preprocessed token has count > 1,
`plot_repeated_words` fails on unpacking an empty `zip` (modelled
`none`) instead of producing an empty chart; `plot_most_common_words`
fails the same way on an empty token sequence. -/
theorem claim_C10_empty_zip_errors (ts : List String) :
    ((∀ w ∈ ts, ts.count w ≤ 1) → plot_repeated_words ts = none) ∧
    plot_most_common_words ([] : List String) = none := by
  constructor
  · intro h
    have hfil : (freqDist ts).filter (fun p => decide (1 < p.2)) = [] := by
      rw [List.filter_eq_nil_iff]
      intro p hp
      have hc := snd_eq_count_of_mem_freqDist ts p hp
      have hmem : p.1 ∈ ts := (mem_distinctTokens ts p.1).1 (List.mem_map.2 ⟨p, hp, rfl⟩)
      have hle := h p.1 hmem
      simp only [decide_eq_true_eq]
      omega
    have hrp : repeated_pairs ts = [] := by
      rw [repeated_pairs, repeated_words, hfil]
      rfl
    simp [plot_repeated_words, hrp]
  · rfl

/-- Witness for C10 at the concrete input ["a", "b"]. -/
theorem claim_C10_witness :
    (∀ w ∈ (["a", "b"] : List String), (["a", "b"] : List String).count w ≤ 1) ∧
    plot_repeated_words ["a", "b"] = none ∧
    plot_most_common_words ([] : List String) = none :=
  ⟨by decide, (claim_C10_empty_zip_errors ["a", "b"]).1 (by decide),
    (claim_C10_empty_zip_errors []).2⟩

/-- C2 (refuted by the code): under the model trained in `main`, the
boundary unigram '<s>' queried for every input has probability exactly
0 (the character-level training never produces the three-character
token "<s>"), so `model.perplexity` raises ValueError (log of 0) for
every input and for every training corpus — perplexity is never a
positive finite number; also evaluated at the concrete corpus ["the"]
and input ["hello"]. -/
theorem claim_C2_zero_probability_ngram (corpus ts : List String) :
    mleScore corpus "<s>" = 0 ∧
    perplexityData (mleModel corpus) ts = none ∧
    perplexityData (mleModel ["the"]) ["hello"] = none :=
  ⟨mleScore_start_eq_zero corpus, perplexityData_mleModel_eq_none corpus ts,
    perplexityData_mleModel_eq_none ["the"] ["hello"]⟩

/-- C3 counterexample: on an input with undefined statistics (empty
token sequence) the pipeline fails with the upstream ValueError, which
is not an insufficient-data condition, and the classifier itself
returns a plain label on numeric inputs rather than failing. -/
theorem claim_C3_counterexample :
    analysis_error ["the", "fox"] [] = some AnalysisError.valueError ∧
    AnalysisError.valueError ≠ AnalysisError.insufficientData ∧
    is_generated_text 0 0 = "Likely generated by a language model" :=
  ⟨analysis_error_mleModel ["the", "fox"] [], by decide, by decide⟩

/-- C3 amended: the classifier is total — it returns one of the two
labels for every pair of numeric inputs and defines no
insufficient-data failure; an input with undefined statistics instead
makes the pipeline fail before the classifier runs, with the
perplexity step's ValueError. -/
theorem claim_C3_classifier_total (p b : ℚ) (corpus : List String) :
    (is_generated_text p b = "Likely generated by a language model" ∨
      is_generated_text p b = "Not likely generated by a language model") ∧
    analysis_error corpus [] = some AnalysisError.valueError := by
  refine ⟨?_, analysis_error_mleModel corpus []⟩
  rw [is_generated_text]
  by_cases h : p < 100 ∧ b < 1
  · exact Or.inl (if_pos h)
  · exact Or.inr (if_neg h)

/-- C5: for empty preprocessed input the pipeline yields no numeric
statistic: burstiness is undefined (ZeroDivisionError) and perplexity
under the trained model is undefined (ValueError), for every training
corpus. -/
theorem claim_C5_empty_input_undefined (corpus : List String) :
    calculate_burstiness ([] : List String) = none ∧
    perplexityData (mleModel corpus) [] = none :=
  ⟨rfl, perplexityData_mleModel_eq_none corpus []⟩

/-- C6: `calculate_perplexity` pads the token sequence with the two
boundary markers, extracts the N n-grams of the model's order from the
padded sequence, and — whenever every queried probability is positive —
returns P ^ (-1/N), the geometric-mean inverse probability, where P is
the product of the queried conditional probabilities. -/
theorem claim_C6_perplexity_formula (m : LangModel) (ts : List String)
    (hne : perplexityScores m ts ≠ [])
    (hpos : ∀ s ∈ perplexityScores m ts, 0 < s) :
    (perplexityScores m ts).length = ts.length + 3 - m.order ∧
    calculate_perplexity m ts =
      some ((((perplexityScores m ts).map (fun p : ℚ => (p : ℝ))).prod) ^
        (-(1 / ((perplexityScores m ts).length : ℝ)))) := by
  constructor
  · simp only [perplexityScores, List.length_map, ngramsList, List.length_range,
      padTokens, List.length_cons, List.length_append, List.length_nil]
  · simp only [calculate_perplexity]
    rw [if_pos ⟨hne, hpos⟩]
    congr 1
    have hS : (2 : ℝ) ^ (((perplexityScores m ts).map (fun p : ℚ => Real.logb 2 (p : ℝ))).sum) =
        ((perplexityScores m ts).map (fun p : ℚ => (p : ℝ))).prod := by
      rw [rpow_two_list_sum, List.map_map]
      congr 1
      apply List.map_congr_left
      intro p hp
      show (2 : ℝ) ^ Real.logb 2 (p : ℝ) = (p : ℝ)
      exact Real.rpow_logb (by norm_num) (by norm_num) (by exact_mod_cast hpos p hp)
    have hexp : -(((perplexityScores m ts).map (fun p : ℚ => Real.logb 2 (p : ℝ))).sum /
        ((perplexityScores m ts).length : ℝ)) =
        (((perplexityScores m ts).map (fun p : ℚ => Real.logb 2 (p : ℝ))).sum) *
          (-(1 / ((perplexityScores m ts).length : ℝ))) := by
      ring
    rw [hexp, Real.rpow_mul (by norm_num), hS]

/-- The model used by the C6 witness: order 1, constant score 2. -/
def constModel : LangModel := ⟨1, fun _ => 2⟩

/-- Witness for C6 at the concrete model `constModel` and empty input. -/
theorem claim_C6_witness :
    (perplexityScores constModel ([] : List String) ≠ []) ∧
    (∀ s ∈ perplexityScores constModel ([] : List String), 0 < s) ∧
    ((perplexityScores constModel ([] : List String)).length =
        ([] : List String).length + 3 - constModel.order ∧
      calculate_perplexity constModel [] =
        some ((((perplexityScores constModel ([] : List String)).map (fun p : ℚ => (p : ℝ))).prod) ^
          (-(1 / ((perplexityScores constModel ([] : List String)).length : ℝ))))) :=
  ⟨by decide, by decide,
    claim_C6_perplexity_formula constModel [] (by decide) (by decide)⟩

/-- C9 counterexample: "..." (kept whole by the word tokenizer) is a
non-empty punctuation-only token, yet it survives `preprocess_text`:
Python's `token not in string.punctuation` is substring containment,
and "..." is not a contiguous substring of `string.punctuation`. -/
theorem claim_C9_counterexample :
    preprocess_text ["..."] = ["..."] ∧
    "...".data ≠ [] ∧ (∀ c ∈ "...".data, c ∈ string_punctuation.data) :=
  ⟨by decide, by decide, by decide⟩

/-- C9 amended: `preprocess_text` keeps exactly the tokens that are
neither stopwords nor contiguous substrings of `string.punctuation`;
in particular every single-character punctuation token is removed,
while a multi-character punctuation-only token that is not a
contiguous substring of `string.punctuation` (such as "...") is
kept. -/
theorem claim_C9_preprocess_filter (toks : List String) :
    (∀ t ∈ preprocess_text toks,
      t ∉ stop_words ∧ subOf t.data string_punctuation.data = false) ∧
    (∀ (t : String) (c : Char), t.data = [c] → c ∈ string_punctuation.data →
      t ∉ preprocess_text toks) := by
  constructor
  · intro t ht
    have h := (List.mem_filter.1 ht).2
    simp only [Bool.and_eq_true, Bool.not_eq_true'] at h
    constructor
    · intro hmem
      have : stop_words.contains t = true := by
        simpa using hmem
      rw [this] at h
      exact absurd h.1 (by decide)
    · exact h.2
  · intro t c hdata hc hmem
    have h := (List.mem_filter.1 hmem).2
    simp only [Bool.and_eq_true, Bool.not_eq_true'] at h
    have hsub : subOf t.data string_punctuation.data = true := by
      rw [hdata]
      exact subOf_singleton_of_mem _ c hc
    rw [hsub] at h
    exact absurd h.2 (by decide)

/-- Witness for C9 at the concrete input ["the", "dog", "."]. -/
theorem claim_C9_witness :
    ("dog" ∈ preprocess_text ["the", "dog", "."]) ∧
    ("dog" ∉ stop_words ∧ subOf "dog".data string_punctuation.data = false) ∧
    (".".data = ['.'] ∧ '.' ∈ string_punctuation.data ∧
      "." ∉ preprocess_text ["the", "dog", "."]) :=
  ⟨by decide,
    (claim_C9_preprocess_filter ["the", "dog", "."]).1 "dog" (by decide),
    ⟨by decide, by decide,
      (claim_C9_preprocess_filter ["the", "dog", "."]).2 "." '.' (by decide) (by decide)⟩⟩

end TextAnalysis
